import Mathlib

/-!
# cruiser-control: the GPIO toggle server of `lights.go`

A shallow embedding of `lights.go`: the pin registry (`pins`, `pinByNumber`),
`setupPins`, the hardware toggle `switchLED`, and the two HTTP handlers
`handleHomeRequest` and `handleSwitchRequest`.

Conventions of the embedding.

* The process globals and the board are one explicit `State`; every handler
  takes the state and the response writer and returns an `Outcome`.
* A `gpio.PinIO` interface value is `Option Line`: `none` is the nil interface,
  on which a method call is a run-time panic.
* The board is a level per line plus the trace of `Read` and `Out` calls; `Read`
  returns the level last driven by `Out`.
* `gpioreg.ByName` and the three escapers that `html/template` inserts are
  library code and are parameters of the definitions that use them.
-/

namespace Lights

/-! ## Hardware: `gpio.Level`, `gpio.PinIO` -/

/-- The two logic levels of `gpio.Level`. -/
inductive Level where
  | Low
  | High
  deriving DecidableEq, Repr

/-- A hardware line, named by its number on the board. -/
abbrev Line := Nat

/-- A `gpio.PinIO` interface value: `none` is nil, `some l` a handle on line `l`. -/
abbrev PinIO := Option Line

/-- One call on a line, as the board sees it. -/
inductive HwOp where
  | read (l : Line) (v : Level)
  | out (l : Line) (v : Level)
  deriving DecidableEq, Repr

/-- The board: the level each line is at, and every call made so far, oldest first. -/
structure Hardware where
  level : Line → Level
  trace : List HwOp

/-- The method `Read` of a non-nil pin: the current level, and the call is recorded. -/
def Hardware.Read (hw : Hardware) (l : Line) : Level × Hardware :=
  (hw.level l, { hw with trace := hw.trace ++ [HwOp.read l (hw.level l)] })

/-- The method `Out` of a non-nil pin: drives line `l` to `v`. -/
def Hardware.Out (hw : Hardware) (l : Line) (v : Level) : Hardware :=
  { level := fun k => if k = l then v else hw.level k,
    trace := hw.trace ++ [HwOp.out l v] }

/-- The `Out` calls of a trace, oldest first. -/
def writesOf (t : List HwOp) : List (Line × Level) :=
  t.filterMap fun op =>
    match op with
    | HwOp.out l v => some (l, v)
    | HwOp.read _ _ => none

/-! ## The registry: `PinState`, `pins`, `pinByNumber` -/

def ROOF_BAR : String := "15"
def ROOF_RIGHT : String := "16"
def ROOF_LEFT : String := "17"

/-- The struct `PinState`. -/
structure PinState where
  LedState : String
  NextState : String
  PinNum : String
  Pin : PinIO
  Name : String
  deriving DecidableEq, Repr

/-- The zero value of `PinState`, which indexing a map yields for an absent key. -/
def PinState.zero : PinState :=
  { LedState := "", NextState := "", PinNum := "", Pin := none, Name := "" }

/-- A `map[string]PinState`, as its key/value entries (keys are distinct). -/
abbrev PinMap := List (String × PinState)

/-- The comma-ok lookup of a map. -/
def mapLookup : PinMap → String → Option PinState
  | [], _ => none
  | (k, v) :: rest, key => if k = key then some v else mapLookup rest key

/-- The index expression `m[key]`: the stored value, or the zero value. -/
def mapIndex (m : PinMap) (key : String) : PinState :=
  (mapLookup m key).getD PinState.zero

/-- The assignment `m[key] = v`: replaces the entry of `key`, or adds one. -/
def mapAssign : PinMap → String → PinState → PinMap
  | [], key, v => [(key, v)]
  | (k, w) :: rest, key, v =>
    if k = key then (k, v) :: rest else (k, w) :: mapAssign rest key v

/-- The package-level variables together with the board they drive. -/
structure State where
  pins : List PinState
  pinByNumber : PinMap
  hw : Hardware

/-! ## `setupPins` -/

/-- The function `setupPins`; `byName` is `gpioreg.ByName`. The loop over `pins`
writes `NextState` into the slice elements, which are copies of the map values. -/
def setupPins (byName : String → PinIO) (s : State) : State :=
  let m0 : PinMap := []
  let m1 := mapAssign m0 ROOF_BAR
    { PinState.zero with Pin := byName ROOF_BAR, PinNum := ROOF_BAR, Name := "Roof Bar" }
  let m2 := mapAssign m1 ROOF_RIGHT
    { PinState.zero with Pin := byName ROOF_RIGHT, PinNum := ROOF_RIGHT, Name := "Roof (Right)" }
  let ps := [mapIndex m2 ROOF_BAR, mapIndex m2 ROOF_RIGHT]
  { s with pinByNumber := m2, pins := ps.map fun p => { p with NextState := "On" } }

/-! ## `switchLED` -/

/-- The function `switchLED`. On the nil interface the first call, `led.Read()`,
panics (`none`) before anything is written. -/
def switchLED (led : PinIO) (hw : Hardware) : Option (String × Hardware) :=
  match led with
  | none => none
  | some l =>
    let (pinReading, hw1) := hw.Read l
    if pinReading = Level.Low then
      some ("Off", hw1.Out l Level.High)
    else
      some ("On", hw1.Out l Level.Low)

/-! ## Requests and responses -/

/-- What a handler did to its `http.ResponseWriter`, oldest first. -/
inductive ResponseEvent where
  /-- One `Write` of the template executor. -/
  | write (chunk : String)
  /-- The call `json.NewEncoder(res).Encode` on the struct with the JSON fields
  `message` and `state`. -/
  | encodeJson (message state : String)
  /-- The call `http.Redirect(res, req, url, code)`. -/
  | redirect (url : String) (code : Nat)
  deriving DecidableEq, Repr

abbrev ResponseWriter := List ResponseEvent

/-- The part of `*http.Request` the handlers look at: the key/value pairs of the
parsed query in the order they appear, and the header with canonical keys. -/
structure Request where
  query : List (String × String)
  header : List (String × List String)

/-- The expression `req.URL.Query()[key]`: all values of `key`, in order. The
comma-ok flag is false exactly when the list is empty. -/
def queryValues (q : List (String × String)) (key : String) : List String :=
  (q.filter fun kv => kv.1 = key).map fun kv => kv.2

/-- The canonical form of a header key: the first letter and each letter after a
hyphen in upper case, the others in lower case. -/
def canonicalChars : Bool → List Char → List Char
  | _, [] => []
  | upper, c :: cs =>
    (if upper then c.toUpper else c.toLower) :: canonicalChars (c = '-') cs

def canonicalMIMEHeaderKey (key : String) : String :=
  String.mk (canonicalChars true key.toList)

/-- The method `Header.Get`: the first value stored under the canonical key, or `""`. -/
def headerGet (h : List (String × List String)) (key : String) : String :=
  match h.find? fun kv => kv.1 = canonicalMIMEHeaderKey key with
  | some (_, v :: _) => v
  | _ => ""

/-- Whether `sub` occurs in the list as a contiguous block. -/
def hasInfix (sub : List Char) : List Char → Bool
  | [] => sub.isPrefixOf []
  | c :: cs => sub.isPrefixOf (c :: cs) || hasInfix sub cs

/-- The function `strings.Contains`. -/
def stringsContains (s substr : String) : Bool :=
  hasInfix substr.toList s.toList

/-- The function `isJsonReq`. -/
def isJsonReq (req : Request) : Bool :=
  stringsContains (headerGet req.header "content-type") "json"

/-- The function `sendJsonState`. -/
def sendJsonState (res : ResponseWriter) (message state : String) : ResponseWriter :=
  res ++ [ResponseEvent.encodeJson message state]

/-- What one run of a handler leaves behind. `panicked` is true when the handler
was left by a run-time panic; `log` holds the operands of each `log.Println`. -/
structure Outcome where
  state : State
  res : ResponseWriter
  log : List (List String)
  panicked : Bool

/-! ## `handleSwitchRequest` -/

/-- The function `handleSwitchRequest`. `pinState` is a copy of the map value, so
the assignment to `pinState.NextState` shows in the log line only. -/
def handleSwitchRequest (s : State) (res : ResponseWriter) (req : Request) : Outcome :=
  match queryValues req.query "pin" with
  | [] => { state := s, res := res, log := [["Url Param \x27pin\x27 is missing"]], panicked := false }
  | p :: _ =>
    if p.length < 1 then
      { state := s, res := res, log := [["Url Param \x27pin\x27 is missing"]], panicked := false }
    else
      let pinState := mapIndex s.pinByNumber p
      let led := pinState.Pin
      match switchLED led s.hw with
      | none => { state := s, res := res, log := [], panicked := true }
      | some (nextState, hw1) =>
        let pinState := { pinState with NextState := nextState }
        let line := ["nextState is", nextState, "Toggled state of pin", pinState.Name,
          "number:", pinState.PinNum, "nextState:", pinState.NextState]
        let s1 := { s with hw := hw1 }
        if isJsonReq req then
          { state := s1, res := sendJsonState res "ok" "On", log := [line], panicked := false }
        else
          { state := s1, res := res ++ [ResponseEvent.redirect "/" 303], log := [line],
            panicked := false }

/-! ## `homeTemplate` and `handleHomeRequest` -/

/-- The escapers that `html/template` appends to an action, by the context the
action stands in. They are library functions. -/
structure Escapers where
  /-- For an action inside a quoted attribute value. -/
  attr : String → String
  /-- For an action inside a quoted script string of an event-handler attribute. -/
  jsStr : String → String
  /-- For an action in element content. -/
  html : String → String

/-- The fields of `PinState` an action can select. -/
inductive Field where
  | LedState
  | NextState
  | PinNum
  | Name
  deriving DecidableEq, Repr

/-- The context of an action, which fixes its escaper. -/
inductive EscCtx where
  | attr
  | jsStr
  | html
  deriving DecidableEq, Repr

/-- A node inside the body of `range .Pins`. -/
inductive Item where
  | text (s : String)
  | action (f : Field) (c : EscCtx)
  deriving DecidableEq, Repr

/-- A top-level node of the template. -/
inductive Node where
  | text (s : String)
  | rangePins (body : List Item)
  deriving DecidableEq, Repr

/-- The text of `homeTemplate` before `range .Pins`. -/
def homeHead : String :=
  "\n<html>\n\t<head>\n\t\t<meta name=\"viewport\" content=\"width=device-width, initial-scale=1\">\n\t\t<title>Cruiser Controller</title>\n\t\t<style>\n\t\t\tbutton \x7b\n\t\t\t\twidth: 300px;\n\t\t\t\theight: 100px;\n\t\t\t\tmargin-top: 5px;\n\t\t\t\tborder-radius: 10px;\n\t\t\t\tbackground: lightgoldenrodyellow;\n\t\t\t\tfont-size: 30px;\n\t\t\t\x7d\n\t\t\t.On \x7b\n\t\t\t\tbackground-color: gray;\n\t\t\t\x7d\n\t\t\t.Off \x7b\n\t\t\t\tbackground-color: green;\n\t\t\t\x7d\n\t\t</style>\n\t</head>\n\t<body class=\"container\">\n\t\t<center>\t\t\n\t\t\t<h3>Cruiser Controller</h3>\n\t\t\t<br/>\n\t\t\t"

/-- From `range .Pins` up to the action `.NextState`. -/
def buttonOpen : String :=
  "\n\t\t\t<button\n\t\t\t\tclass=\"mdl-button mdl-js-button mdl-button--raised mdl-js-ripple-effect mdl-button--accent "

/-- Between the actions `.NextState` and `.PinNum`. -/
def buttonLink : String :=
  "\"\n\t\t\t\tonClick=\"javascript:location.href = \x27/switch?pin="

/-- Between the actions `.PinNum` and `.Name`. -/
def buttonLabel : String :=
  "\x27;\">\n\t\t\t\t"

/-- From the action `.Name` up to `end`. -/
def buttonClose : String :=
  "\n\t\t\t</button>\n\t\t\t<br/>\n\t\t\t"

/-- The text of `homeTemplate` after `end`. -/
def homeTail : String :=
  "\n\t\t</center>\n\t</body>\n</html>\n"

/-- The parsed `homeTemplate`. -/
def homeTemplate : List Node :=
  [ Node.text homeHead,
    Node.rangePins
      [ Item.text buttonOpen,
        Item.action Field.NextState EscCtx.attr,
        Item.text buttonLink,
        Item.action Field.PinNum EscCtx.jsStr,
        Item.text buttonLabel,
        Item.action Field.Name EscCtx.html,
        Item.text buttonClose ],
    Node.text homeTail ]

def PinState.field (p : PinState) : Field → String
  | Field.LedState => p.LedState
  | Field.NextState => p.NextState
  | Field.PinNum => p.PinNum
  | Field.Name => p.Name

def Escapers.apply (esc : Escapers) : EscCtx → String → String
  | EscCtx.attr => esc.attr
  | EscCtx.jsStr => esc.jsStr
  | EscCtx.html => esc.html

/-- What one node of the range body writes with dot set to `p`. -/
def execItem (esc : Escapers) (p : PinState) : Item → String
  | Item.text s => s
  | Item.action f c => esc.apply c (p.field f)

/-- The writes of one top-level node; `range` runs its body once per element, in
slice order, and writes nothing for an empty slice. -/
def execNode (esc : Escapers) (pins : List PinState) : Node → List String
  | Node.text s => [s]
  | Node.rangePins body => (pins.map fun p => body.map (execItem esc p)).flatten

/-- The method `Execute` on the data `struct{Pins}`: the chunks written, in order. -/
def execute (esc : Escapers) (t : List Node) (pins : List PinState) : List String :=
  (t.map (execNode esc pins)).flatten

/-- The function `handleHomeRequest`. -/
def handleHomeRequest (esc : Escapers) (s : State) (res : ResponseWriter)
    (_req : Request) : Outcome :=
  { state := s,
    res := res ++ (execute esc homeTemplate s.pins).map ResponseEvent.write,
    log := [],
    panicked := false }

/-- The body a client receives: the written chunks, concatenated. -/
def bodyOf (res : ResponseWriter) : String :=
  String.join (res.filterMap fun e =>
    match e with
    | ResponseEvent.write c => some c
    | _ => none)

/-! ## The server loop -/

/-- A request as routed by `main`: `/switch` goes to `handleSwitchRequest`, every
other path to `handleHomeRequest`. -/
inductive Event where
  | home (req : Request)
  | switch (req : Request)

/-- Serving one request on a fresh response writer. A panic of the handler is
recovered by the server, which keeps running on the state the handler left. -/
def serveOne (esc : Escapers) (s : State) : Event → Outcome
  | Event.home req => handleHomeRequest esc s [] req
  | Event.switch req => handleSwitchRequest s [] req

/-- The state after serving the requests one after the other. -/
def serve (esc : Escapers) (s : State) (evs : List Event) : State :=
  evs.foldl (fun st ev => (serveOne esc st ev).state) s

/-! ## Concrete values used in the examples -/

/-- A board on which every line is at `v` and nothing has been called yet. -/
def boardAt (v : Level) : Hardware :=
  { level := fun _ => v, trace := [] }

/-- A resolver that knows the lines 15 and 16 only. -/
def omegaByName (name : String) : PinIO :=
  if name = "15" then some 15 else if name = "16" then some 16 else none

/-- The state of the variables before `setupPins` has run. -/
def emptyState (hw : Hardware) : State :=
  { pins := [], pinByNumber := [], hw := hw }

/-- A request `/switch?pin=<id>` without headers. -/
def switchReq (id : String) : Request :=
  { query := [("pin", id)], header := [] }

/-- A request `/switch?pin=<id>` that declares a JSON content type. -/
def switchJsonReq (id : String) : Request :=
  { query := [("pin", id)], header := [("Content-Type", ["application/json"])] }

/-! ## Definitions used to state the properties -/

/-- The level `switchLED` drives after reading `v`. -/
def written (v : Level) : Level :=
  if v = Level.Low then Level.High else Level.Low

/-- The label `switchLED` returns after reading `v`. -/
def labelFor (v : Level) : String :=
  if v = Level.Low then "Off" else "On"

/-- The board after one `switchLED` on line `l`. -/
def toggled (hw : Hardware) (l : Line) : Hardware :=
  { level := fun k => if k = l then written (hw.level l) else hw.level k,
    trace := hw.trace ++ [HwOp.read l (hw.level l), HwOp.out l (written (hw.level l))] }

/-- The registry and board right after `setupPins` on a board with every line at `v`,
the lines 15 and 16 resolved. -/
def setupAt (v : Level) : State :=
  setupPins omegaByName (emptyState (boardAt v))

/-- Two switch requests served one after the other. -/
def twice (s : State) (req1 req2 : Request) : Outcome :=
  handleSwitchRequest (handleSwitchRequest s [] req1).state [] req2

/-- The descriptor `setupPins` stores in the map for an identifier. -/
def configured (byName : String → PinIO) (id name : String) : PinState :=
  { LedState := "", NextState := "", PinNum := id, Pin := byName id, Name := name }

/-- The markup of the button of one descriptor: the class attribute ends in the
display state, the click handler goes to `/switch?pin=` followed by the identifier,
and the content is the display name. -/
def buttonOf (esc : Escapers) (p : PinState) : String :=
  "\n\t\t\t<button\n\t\t\t\tclass=\"mdl-button mdl-js-button mdl-button--raised mdl-js-ripple-effect mdl-button--accent "
    ++ esc.attr p.NextState
    ++ "\"\n\t\t\t\tonClick=\"javascript:location.href = \x27/switch?pin="
    ++ esc.jsStr p.PinNum
    ++ "\x27;\">\n\t\t\t\t"
    ++ esc.html p.Name
    ++ "\n\t\t\t</button>\n\t\t\t<br/>\n\t\t\t"

/-- The opening of a button element. -/
def buttonTag : List Char := ['<', 'b', 'u', 't', 't', 'o', 'n']

/-- The number of positions of a text at which `pat` starts. -/
def countOcc (pat : List Char) : List Char → Nat
  | [] => 0
  | c :: cs => (if pat.isPrefixOf (c :: cs) then 1 else 0) + countOcc pat cs

/-- Every position of the text at which the first character of `pat` stands has at
least `pat.length` characters from there to the end of the text. -/
def closedFor (pat : List Char) : List Char → Bool
  | [] => true
  | c :: cs =>
    (pat.head? != some c || decide (pat.length ≤ (c :: cs).length)) && closedFor pat cs

/-- An escaper that writes `&lt;` for `<` and leaves the other characters. -/
def escapeAngle (x : String) : String :=
  String.mk (x.data.map fun c => if c = '<' then ['&', 'l', 't', ';'] else [c]).flatten

/-- Escapers for the examples. -/
def sampleEscapers : Escapers :=
  { attr := escapeAngle, jsStr := escapeAngle, html := escapeAngle }

/-! ## Basic facts about the model -/

theorem mapIndex_of_lookup {m : PinMap} {key : String} {d : PinState}
    (h : mapLookup m key = some d) : mapIndex m key = d := by
  simp [mapIndex, h]

theorem length_lt_one_iff (p : String) : p.length < 1 ↔ p = "" := by
  rw [Nat.lt_one_iff]
  constructor
  · intro h
    have h1 : p.data = [] := List.length_eq_zero.mp h
    exact String.ext h1
  · rintro rfl
    rfl

/-- What `switchLED` does on a real line, in one equation. -/
theorem switchLED_some (l : Line) (hw : Hardware) :
    switchLED (some l) hw =
      some (if hw.level l = Level.Low then "Off" else "On",
        { level := fun k =>
            if k = l then (if hw.level l = Level.Low then Level.High else Level.Low)
            else hw.level k,
          trace := hw.trace ++ [HwOp.read l (hw.level l),
            HwOp.out l (if hw.level l = Level.Low then Level.High else Level.Low)] }) := by
  unfold switchLED Hardware.Read Hardware.Out
  by_cases h : hw.level l = Level.Low <;> simp [h]

theorem writesOf_append (a b : List HwOp) : writesOf (a ++ b) = writesOf a ++ writesOf b := by
  simp [writesOf, List.filterMap_append]

/-! ## C1: the toggle -/

/-- C1: on a line that reads Low, `switchLED` drives it High and returns "Off"; on
any other reading it drives the line Low and returns "On". The call reads once and
then writes exactly once, and the label is "On" or "Off". -/
theorem switchLED_contract (l : Line) (hw : Hardware) :
    ∃ label hw1, switchLED (some l) hw = some (label, hw1) ∧
      (hw.level l = Level.Low →
        label = "Off" ∧ hw1.level l = Level.High ∧
        hw1.trace = hw.trace ++ [HwOp.read l Level.Low, HwOp.out l Level.High]) ∧
      (hw.level l ≠ Level.Low →
        label = "On" ∧ hw1.level l = Level.Low ∧
        hw1.trace = hw.trace ++ [HwOp.read l (hw.level l), HwOp.out l Level.Low]) ∧
      (writesOf hw1.trace).length = (writesOf hw.trace).length + 1 ∧
      (label = "On" ∨ label = "Off") := by
  refine ⟨_, _, switchLED_some l hw, ?_, ?_, ?_, ?_⟩
  · intro h
    simp [h]
  · intro h
    simp [h]
  · simp [writesOf_append, writesOf]
  · by_cases h : hw.level l = Level.Low <;> simp [h]

/-! ## The switch handler, case by case -/

theorem switchLED_eq_toggled (l : Line) (hw : Hardware) :
    switchLED (some l) hw = some (labelFor (hw.level l), toggled hw l) := by
  rw [switchLED_some]
  rfl

theorem written_ne (v : Level) : written v ≠ v := by
  cases v <;> simp [written]

theorem written_written (v : Level) : written (written v) = v := by
  cases v <;> simp [written]

/-- The handler on a missing or empty `pin`: it logs and returns. -/
theorem handleSwitchRequest_missing (s : State) (res : ResponseWriter) (req : Request)
    (h : queryValues req.query "pin" = [] ∨ (queryValues req.query "pin").head? = some "") :
    handleSwitchRequest s res req =
      { state := s, res := res, log := [["Url Param \x27pin\x27 is missing"]],
        panicked := false } := by
  unfold handleSwitchRequest
  rcases h with h | h
  · rw [h]
  · cases hq : queryValues req.query "pin" with
    | nil => rfl
    | cons p rest =>
      rw [hq] at h
      simp only [List.head?_cons, Option.some.injEq] at h
      subst h
      rfl

/-- The handler on a `pin` whose descriptor holds a real line. -/
theorem handleSwitchRequest_known (s : State) (res : ResponseWriter) (req : Request)
    (p : String) (rest : List String) (d : PinState) (l : Line)
    (hq : queryValues req.query "pin" = p :: rest) (hp : p ≠ "")
    (hd : mapLookup s.pinByNumber p = some d) (hl : d.Pin = some l) :
    handleSwitchRequest s res req =
      { state := { s with hw := toggled s.hw l },
        res := res ++ [if isJsonReq req then ResponseEvent.encodeJson "ok" "On"
                       else ResponseEvent.redirect "/" 303],
        log := [["nextState is", labelFor (s.hw.level l), "Toggled state of pin", d.Name,
          "number:", d.PinNum, "nextState:", labelFor (s.hw.level l)]],
        panicked := false } := by
  have hlen : ¬ p.length < 1 := fun h => hp ((length_lt_one_iff p).mp h)
  unfold handleSwitchRequest
  rw [hq]
  simp only [hlen, if_false, mapIndex_of_lookup hd, hl, switchLED_eq_toggled]
  by_cases hj : isJsonReq req <;> simp [hj, sendJsonState]

/-- The handler on a `pin` whose descriptor holds the nil interface: it panics in
`switchLED` and nothing has changed by then. -/
theorem handleSwitchRequest_nil (s : State) (res : ResponseWriter) (req : Request)
    (p : String) (rest : List String)
    (hq : queryValues req.query "pin" = p :: rest) (hp : p ≠ "")
    (hnil : (mapIndex s.pinByNumber p).Pin = none) :
    handleSwitchRequest s res req =
      { state := s, res := res, log := [], panicked := true } := by
  have hlen : ¬ p.length < 1 := fun h => hp ((length_lt_one_iff p).mp h)
  unfold handleSwitchRequest
  rw [hq]
  simp only [hlen, if_false, hnil, switchLED]

/-- No handler assigns to `pins` or `pinByNumber`. -/
theorem handleSwitchRequest_registry (s : State) (res : ResponseWriter) (req : Request) :
    (handleSwitchRequest s res req).state.pins = s.pins ∧
      (handleSwitchRequest s res req).state.pinByNumber = s.pinByNumber := by
  unfold handleSwitchRequest
  cases queryValues req.query "pin" with
  | nil => exact ⟨rfl, rfl⟩
  | cons p rest =>
    by_cases hlen : p.length < 1
    · simp [hlen]
    · simp only [hlen, if_false]
      cases switchLED (mapIndex s.pinByNumber p).Pin s.hw with
      | none => exact ⟨rfl, rfl⟩
      | some r => by_cases hj : isJsonReq req <;> simp [hj]

theorem hasInfix_iff (sub s : List Char) :
    hasInfix sub s = true ↔ ∃ a b, s = a ++ sub ++ b := by
  induction s with
  | nil =>
    simp only [hasInfix]
    constructor
    · intro h
      have hs : sub = [] := by
        cases sub with
        | nil => rfl
        | cons x xs => simp [List.isPrefixOf] at h
      exact ⟨[], [], by simp [hs]⟩
    · rintro ⟨a, b, h⟩
      have hlen := congrArg List.length h
      simp only [List.length_nil, List.length_append] at hlen
      have hs : sub = [] := List.length_eq_zero.mp (by omega)
      simp [hs]
  | cons c cs ih =>
    simp only [hasInfix, Bool.or_eq_true, ih, List.isPrefixOf_iff_prefix]
    constructor
    · rintro (⟨t, ht⟩ | ⟨a, b, h⟩)
      · exact ⟨[], t, by simp [ht]⟩
      · exact ⟨c :: a, b, by simp [h]⟩
    · rintro ⟨a, b, h⟩
      cases a with
      | nil =>
        left
        exact ⟨b, by simpa using h.symm⟩
      | cons x a =>
        right
        simp only [List.cons_append, List.cons.injEq] at h
        exact ⟨a, b, h.2⟩

theorem queryValues_eq_nil_iff (q : List (String × String)) (key : String) :
    queryValues q key = [] ↔ ∀ v, (key, v) ∉ q := by
  induction q with
  | nil => simp [queryValues]
  | cons kv rest ih =>
    obtain ⟨k, w⟩ := kv
    by_cases hk : k = key
    · subst hk
      simp only [queryValues, List.filter_cons, decide_True, if_true, List.map_cons,
        List.mem_cons, not_or]
      constructor
      · intro h
        cases h
      · intro h
        exact absurd rfl (h w).1
    · have hstep : queryValues ((k, w) :: rest) key = queryValues rest key := by
        simp [queryValues, List.filter_cons, hk]
      rw [hstep, ih]
      constructor
      · intro h v hmem
        rcases List.mem_cons.mp hmem with heq | hin
        · exact hk (Prod.mk.inj heq).1.symm
        · exact h v hin
      · intro h v hin
        exact h v (List.mem_cons_of_mem _ hin)

theorem serveOne_registry (esc : Escapers) (s : State) (ev : Event) :
    (serveOne esc s ev).state.pins = s.pins ∧
      (serveOne esc s ev).state.pinByNumber = s.pinByNumber := by
  cases ev with
  | home req => exact ⟨rfl, rfl⟩
  | switch req => exact handleSwitchRequest_registry s [] req

theorem serve_registry (esc : Escapers) (evs : List Event) (s : State) :
    (serve esc s evs).pins = s.pins ∧ (serve esc s evs).pinByNumber = s.pinByNumber := by
  induction evs generalizing s with
  | nil => exact ⟨rfl, rfl⟩
  | cons ev rest ih =>
    have h1 := serveOne_registry esc s ev
    have h2 := ih (serveOne esc s ev).state
    simp only [serve, List.foldl_cons] at h2 ⊢
    exact ⟨h2.1.trans h1.1, h2.2.trans h1.2⟩

/-- The map `setupPins` builds, written out. -/
theorem setupPins_pinByNumber (byName : String → PinIO) (s : State) :
    (setupPins byName s).pinByNumber =
      [("15", configured byName "15" "Roof Bar"),
       ("16", configured byName "16" "Roof (Right)")] := rfl

/-- The slice `setupPins` builds, written out. -/
theorem setupPins_pins (byName : String → PinIO) (s : State) :
    (setupPins byName s).pins =
      [{ configured byName "15" "Roof Bar" with NextState := "On" },
       { configured byName "16" "Roof (Right)" with NextState := "On" }] := rfl

/-! ## C9: the registry after `setupPins` -/

/-- C9: after `setupPins`, looking up "15" and "16" in `pinByNumber` gives descriptors
with that identifier and the names "Roof Bar" and "Roof (Right)"; the keys of the map
and the identifiers of `pins` are pairwise distinct; and `pins` holds the same
identifiers and names in the order "15", "16". -/
theorem setupPins_registry (byName : String → PinIO) (s : State) :
    (∃ d, mapLookup (setupPins byName s).pinByNumber "15" = some d ∧
      d.PinNum = "15" ∧ d.Name = "Roof Bar" ∧ d.Pin = byName "15") ∧
    (∃ d, mapLookup (setupPins byName s).pinByNumber "16" = some d ∧
      d.PinNum = "16" ∧ d.Name = "Roof (Right)" ∧ d.Pin = byName "16") ∧
    (setupPins byName s).pinByNumber.map Prod.fst = ["15", "16"] ∧
    ((setupPins byName s).pinByNumber.map Prod.fst).Nodup ∧
    ((setupPins byName s).pins.map fun p => p.PinNum).Nodup ∧
    ((setupPins byName s).pins.map fun p => (p.PinNum, p.Name)) =
      [("15", "Roof Bar"), ("16", "Roof (Right)")] ∧
    ((setupPins byName s).pins.map fun p => p.Pin) = [byName "15", byName "16"] := by
  refine ⟨⟨_, rfl, rfl, rfl, rfl⟩, ⟨_, rfl, rfl, rfl, rfl⟩, rfl, ?_, ?_, rfl, rfl⟩
  · show (["15", "16"] : List String).Nodup
    decide
  · show (["15", "16"] : List String).Nodup
    decide

/-! ## C10: the registry never changes after `setupPins` -/

/-- C10: after `setupPins` and any sequence of home and switch requests, `pins` and
`pinByNumber` are what `setupPins` left: every entry of `pins` has `NextState` "On",
every value of `pinByNumber` has the empty `NextState`, and the home page is the two
buttons "15" and "16", each with the class "On". -/
theorem registry_invariant (esc : Escapers) (byName : String → PinIO) (s0 : State)
    (evs : List Event) (res : ResponseWriter) (req : Request) :
    (serve esc (setupPins byName s0) evs).pins = (setupPins byName s0).pins ∧
    (serve esc (setupPins byName s0) evs).pinByNumber = (setupPins byName s0).pinByNumber ∧
    (∀ p ∈ (serve esc (setupPins byName s0) evs).pins, p.NextState = "On") ∧
    (∀ kv ∈ (serve esc (setupPins byName s0) evs).pinByNumber, kv.2.NextState = "") ∧
    (handleHomeRequest esc (serve esc (setupPins byName s0) evs) res req).res =
      res ++ [ResponseEvent.write homeHead,
        ResponseEvent.write buttonOpen, ResponseEvent.write (esc.attr "On"),
        ResponseEvent.write buttonLink, ResponseEvent.write (esc.jsStr "15"),
        ResponseEvent.write buttonLabel, ResponseEvent.write (esc.html "Roof Bar"),
        ResponseEvent.write buttonClose,
        ResponseEvent.write buttonOpen, ResponseEvent.write (esc.attr "On"),
        ResponseEvent.write buttonLink, ResponseEvent.write (esc.jsStr "16"),
        ResponseEvent.write buttonLabel, ResponseEvent.write (esc.html "Roof (Right)"),
        ResponseEvent.write buttonClose,
        ResponseEvent.write homeTail] := by
  obtain ⟨hp, hm⟩ := serve_registry esc evs (setupPins byName s0)
  refine ⟨hp, hm, ?_, ?_, ?_⟩
  · rw [hp, setupPins_pins]
    intro p hmem
    simp only [List.mem_cons, List.mem_singleton, List.not_mem_nil, or_false] at hmem
    rcases hmem with rfl | rfl <;> rfl
  · rw [hm, setupPins_pinByNumber]
    intro kv hmem
    simp only [List.mem_cons, List.mem_singleton, List.not_mem_nil, or_false] at hmem
    rcases hmem with rfl | rfl <;> rfl
  · simp only [handleHomeRequest, hp, setupPins_pins]
    rfl

/-! ## C7: a missing or empty `pin` -/

/-- C7: when the query has no `pin` parameter, or its first `pin` value is empty, the
handler leaves the state as it was (no line read or written, no descriptor changed),
writes nothing to the response and does not panic. -/
theorem switch_missing_pin_noop (s : State) (res : ResponseWriter) (req : Request)
    (h : (∀ v, ("pin", v) ∉ req.query) ∨ (queryValues req.query "pin").head? = some "") :
    (handleSwitchRequest s res req).state = s ∧
    (handleSwitchRequest s res req).state.hw.trace = s.hw.trace ∧
    (handleSwitchRequest s res req).res = res ∧
    (handleSwitchRequest s res req).panicked = false := by
  have h2 : queryValues req.query "pin" = [] ∨
      (queryValues req.query "pin").head? = some "" :=
    h.imp (queryValues_eq_nil_iff req.query "pin").mpr id
  rw [handleSwitchRequest_missing s res req h2]
  exact ⟨rfl, rfl, rfl, rfl⟩

/-- C7 at `/switch` without a query, after `setupPins`. -/
theorem switch_missing_pin_noop_witness :
    ((∀ v, ("pin", v) ∉ ([] : List (String × String))) ∨
      (queryValues [] "pin").head? = some "") ∧
    (handleSwitchRequest (setupAt Level.Low) [] { query := [], header := [] }).state.hw.trace
      = [] ∧
    (handleSwitchRequest (setupAt Level.Low) [] { query := [], header := [] }).res = [] ∧
    (handleSwitchRequest (setupAt Level.Low) [] { query := [], header := [] }).panicked
      = false :=
  have h := switch_missing_pin_noop (setupAt Level.Low) [] { query := [], header := [] }
    (Or.inl fun _ hmem => List.not_mem_nil _ hmem)
  ⟨Or.inl fun _ hmem => List.not_mem_nil _ hmem, h.2.1, h.2.2.1, h.2.2.2⟩

/-! ## C3: two toggles in a row -/

/-- C3: for a pin whose descriptor holds a real line, two switch requests in a row
bring the line back to the level it had (the first one changes it, the second write
is the original level), and the descriptor's display label, in `pinByNumber` and in
`pins`, is the same after the second request as before the first. -/
theorem toggle_twice_roundtrip (s : State) (req1 req2 : Request) (p : String)
    (rest1 rest2 : List String) (d : PinState) (l : Line)
    (hq1 : queryValues req1.query "pin" = p :: rest1)
    (hq2 : queryValues req2.query "pin" = p :: rest2) (hp : p ≠ "")
    (hd : mapLookup s.pinByNumber p = some d) (hl : d.Pin = some l) :
    (handleSwitchRequest s [] req1).state.hw.level l ≠ s.hw.level l ∧
    (twice s req1 req2).state.hw.level l = s.hw.level l ∧
    (∀ k, (twice s req1 req2).state.hw.level k = s.hw.level k) ∧
    (∃ v, writesOf (twice s req1 req2).state.hw.trace =
      writesOf s.hw.trace ++ [(l, v), (l, s.hw.level l)]) ∧
    (mapIndex (twice s req1 req2).state.pinByNumber p).NextState = d.NextState ∧
    (twice s req1 req2).state.pinByNumber = s.pinByNumber ∧
    (twice s req1 req2).state.pins = s.pins ∧
    (twice s req1 req2).panicked = false := by
  have h1 := handleSwitchRequest_known s [] req1 p rest1 d l hq1 hp hd hl
  have h2 := handleSwitchRequest_known { s with hw := toggled s.hw l } [] req2 p rest2 d l
    hq2 hp hd hl
  have hlev : ∀ k, (toggled (toggled s.hw l) l).level k = s.hw.level k := by
    intro k
    by_cases hk : k = l
    · subst hk
      simp [toggled, written_written]
    · simp [toggled, hk]
  unfold twice
  rw [h1, h2]
  refine ⟨?_, hlev l, hlev, ⟨written (s.hw.level l), ?_⟩, ?_, rfl, rfl, rfl⟩
  · simpa [toggled] using written_ne (s.hw.level l)
  · simp [toggled, writesOf_append, writesOf, written_written]
  · show (mapIndex s.pinByNumber p).NextState = d.NextState
    rw [mapIndex_of_lookup hd]

/-- C3 at pin "16" after `setupPins`, the line at Low: Low, then High, then Low again. -/
theorem toggle_twice_roundtrip_witness :
    (handleSwitchRequest (setupAt Level.Low) [] (switchReq "16")).state.hw.level 16
      ≠ (setupAt Level.Low).hw.level 16 ∧
    (twice (setupAt Level.Low) (switchReq "16") (switchJsonReq "16")).state.hw.level 16
      = (setupAt Level.Low).hw.level 16 ∧
    (twice (setupAt Level.Low) (switchReq "16") (switchJsonReq "16")).state.pins
      = (setupAt Level.Low).pins :=
  have h := toggle_twice_roundtrip (setupAt Level.Low) (switchReq "16") (switchJsonReq "16")
    "16" [] [] (configured omegaByName "16" "Roof (Right)") 16 rfl rfl (by decide) rfl rfl
  ⟨h.1, h.2.1, h.2.2.2.2.2.2.1⟩

/-! ## C4: one toggle touches one line -/

/-- C4: a switch request for a pin whose descriptor holds line `l` inverts the level
of `l`, writes once and only to `l`, and leaves every other line at its level; `pins`
and `pinByNumber` are unchanged. So for every other configured pin `q`, whose line is
another line, the line level and the descriptor are what they were. -/
theorem switch_frame (s : State) (res : ResponseWriter) (req : Request) (p : String)
    (rest : List String) (d : PinState) (l : Line)
    (hq : queryValues req.query "pin" = p :: rest) (hp : p ≠ "")
    (hd : mapLookup s.pinByNumber p = some d) (hl : d.Pin = some l) :
    (s.hw.level l = Level.Low →
      (handleSwitchRequest s res req).state.hw.level l = Level.High) ∧
    (s.hw.level l = Level.High →
      (handleSwitchRequest s res req).state.hw.level l = Level.Low) ∧
    (∀ k, k ≠ l → (handleSwitchRequest s res req).state.hw.level k = s.hw.level k) ∧
    (∃ v, writesOf (handleSwitchRequest s res req).state.hw.trace =
      writesOf s.hw.trace ++ [(l, v)]) ∧
    (handleSwitchRequest s res req).state.pins = s.pins ∧
    (handleSwitchRequest s res req).state.pinByNumber = s.pinByNumber ∧
    (∀ q dq lq, q ≠ p → mapLookup s.pinByNumber q = some dq → dq.Pin = some lq → lq ≠ l →
      (handleSwitchRequest s res req).state.hw.level lq = s.hw.level lq ∧
      mapLookup (handleSwitchRequest s res req).state.pinByNumber q = some dq ∧
      (mapIndex (handleSwitchRequest s res req).state.pinByNumber q).NextState
        = dq.NextState) := by
  rw [handleSwitchRequest_known s res req p rest d l hq hp hd hl]
  refine ⟨?_, ?_, ?_, ⟨written (s.hw.level l), ?_⟩, rfl, rfl, ?_⟩
  · intro h
    simp [toggled, written, h]
  · intro h
    simp [toggled, written, h]
  · intro k hk
    simp [toggled, hk]
  · simp [toggled, writesOf_append, writesOf]
  · intro q dq lq _ hdq _ hne
    refine ⟨?_, hdq, ?_⟩
    · simp [toggled, hne]
    · show (mapIndex s.pinByNumber q).NextState = dq.NextState
      rw [mapIndex_of_lookup hdq]

/-- C4 at pin "16" after `setupPins`, both lines at Low: line 16 goes High, line 15 and
the descriptor of "15" stay. -/
theorem switch_frame_witness :
    (handleSwitchRequest (setupAt Level.Low) [] (switchReq "16")).state.hw.level 16
      = Level.High ∧
    (handleSwitchRequest (setupAt Level.Low) [] (switchReq "16")).state.hw.level 15
      = Level.Low ∧
    mapLookup (handleSwitchRequest (setupAt Level.Low) [] (switchReq "16")).state.pinByNumber
      "15" = some (configured omegaByName "15" "Roof Bar") :=
  have h := switch_frame (setupAt Level.Low) [] (switchReq "16") "16" []
    (configured omegaByName "16" "Roof (Right)") 16 rfl (by decide) rfl rfl
  have h15 := h.2.2.2.2.2.2 "15" (configured omegaByName "15" "Roof Bar") 15 (by decide)
    rfl rfl (by decide)
  ⟨h.1 rfl, h15.1, h15.2.1⟩

/-! ## C5: the response of a switch request -/

/-- C5: for a switch request on a pin whose descriptor holds a real line, if the
`content-type` header value contains "json" the handler encodes the JSON object with
message "ok" and state "On", whatever level the line was at; otherwise it redirects
to "/" with status 303 and encodes no JSON. -/
theorem switch_response (s : State) (res : ResponseWriter) (req : Request) (p : String)
    (rest : List String) (d : PinState) (l : Line)
    (hq : queryValues req.query "pin" = p :: rest) (hp : p ≠ "")
    (hd : mapLookup s.pinByNumber p = some d) (hl : d.Pin = some l) :
    ((∃ a b, (headerGet req.header "content-type").toList = a ++ ['j', 's', 'o', 'n'] ++ b) →
      (handleSwitchRequest s res req).res = res ++ [ResponseEvent.encodeJson "ok" "On"]) ∧
    ((¬ ∃ a b, (headerGet req.header "content-type").toList = a ++ ['j', 's', 'o', 'n'] ++ b) →
      (handleSwitchRequest s res req).res = res ++ [ResponseEvent.redirect "/" 303]) ∧
    (handleSwitchRequest s res req).panicked = false := by
  have hiff : isJsonReq req = true ↔
      ∃ a b, (headerGet req.header "content-type").toList = a ++ ['j', 's', 'o', 'n'] ++ b :=
    hasInfix_iff _ _
  rw [handleSwitchRequest_known s res req p rest d l hq hp hd hl]
  refine ⟨?_, ?_, rfl⟩
  · intro h
    simp [hiff.mpr h]
  · intro h
    have hj : isJsonReq req = false := by
      cases hb : isJsonReq req with
      | false => rfl
      | true => exact absurd (hiff.mp hb) h
    simp [hj]

/-- C5 at a JSON request for pin "16" with the line at Low: `switchLED` returns "Off"
and the body still says "On". -/
theorem switch_response_witness :
    (switchLED (some 16) (setupAt Level.Low).hw).map Prod.fst = some "Off" ∧
    (handleSwitchRequest (setupAt Level.Low) [] (switchJsonReq "16")).res
      = [ResponseEvent.encodeJson "ok" "On"] ∧
    (handleSwitchRequest (setupAt Level.Low) [] (switchReq "16")).res
      = [ResponseEvent.redirect "/" 303] :=
  have hj := switch_response (setupAt Level.Low) [] (switchJsonReq "16") "16" []
    (configured omegaByName "16" "Roof (Right)") 16 rfl (by decide) rfl rfl
  have hr := switch_response (setupAt Level.Low) [] (switchReq "16") "16" []
    (configured omegaByName "16" "Roof (Right)") 16 rfl (by decide) rfl rfl
  ⟨rfl, hj.1 ⟨"application/".toList, [], rfl⟩,
    hr.2.1 (by
      rintro ⟨a, b, h⟩
      have hlen := congrArg List.length h
      simp [headerGet, switchReq] at hlen
      omega)⟩

/-! ## C2 and C6: where the handler departs from its contract -/

/-- C2 at `/switch?pin=16` after `setupPins`, line 16 at Low: `switchLED` returns "Off"
and the log line shows a descriptor with "Off", but the entry of "16" in `pinByNumber`
still has the empty `NextState` and the entries of `pins` still have "On". -/
theorem switch16_registry_keeps_old_label :
    (switchLED (mapIndex (setupAt Level.Low).pinByNumber "16").Pin
      (setupAt Level.Low).hw).map Prod.fst = some "Off" ∧
    (handleSwitchRequest (setupAt Level.Low) [] (switchReq "16")).log =
      [["nextState is", "Off", "Toggled state of pin", "Roof (Right)", "number:", "16",
        "nextState:", "Off"]] ∧
    (mapIndex (handleSwitchRequest (setupAt Level.Low) [] (switchReq "16")).state.pinByNumber
      "16").NextState = "" ∧
    ((handleSwitchRequest (setupAt Level.Low) [] (switchReq "16")).state.pins.map
      fun q => (q.PinNum, q.NextState)) = [("15", "On"), ("16", "On")] := by
  refine ⟨rfl, ?_, ?_, ?_⟩ <;> decide

/-- C6 at `/switch?pin=99` after `setupPins`: "99" is not a key of `pinByNumber`, the
lookup gives the zero descriptor with the nil interface, and the handler panics in
`switchLED`; no line was read or written and nothing was sent. -/
theorem switch99_panics :
    mapLookup (setupAt Level.Low).pinByNumber "99" = none ∧
    (mapIndex (setupAt Level.Low).pinByNumber "99").Pin = none ∧
    (handleSwitchRequest (setupAt Level.Low) [] (switchReq "99")).panicked = true ∧
    (handleSwitchRequest (setupAt Level.Low) [] (switchReq "99")).res = [] ∧
    (handleSwitchRequest (setupAt Level.Low) [] (switchReq "99")).state.hw.trace = [] ∧
    (handleSwitchRequest (setupAt Level.Low) [] (switchReq "99")).state.pins
      = (setupAt Level.Low).pins := by
  refine ⟨?_, ?_, ?_, ?_, ?_, ?_⟩ <;> decide

/-! ## C8: the home page -/

theorem isPrefixOf_append_of_length_le (pat u b : List Char) (h : pat.length ≤ u.length) :
    pat.isPrefixOf (u ++ b) = pat.isPrefixOf u := by
  induction pat generalizing u with
  | nil => simp
  | cons x xs ih =>
    cases u with
    | nil => simp at h
    | cons y ys =>
      have h2 : xs.length ≤ ys.length := by simpa using h
      rw [List.cons_append, List.isPrefixOf_cons₂, List.isPrefixOf_cons₂, ih ys h2]

theorem isPrefixOf_of_head_ne (pat : List Char) (c : Char) (u v : List Char)
    (h : pat.head? ≠ some c) : pat.isPrefixOf (c :: u) = pat.isPrefixOf (c :: v) := by
  cases pat with
  | nil => simp
  | cons x xs =>
    have hx : (x == c) = false := by
      simpa using fun e : x = c => h (by simp [e])
    rw [List.isPrefixOf_cons₂, List.isPrefixOf_cons₂, hx]
    rfl

theorem countOcc_append (pat t b : List Char) (h : closedFor pat t = true) :
    countOcc pat (t ++ b) = countOcc pat t + countOcc pat b := by
  induction t with
  | nil => simp [countOcc]
  | cons c cs ih =>
    simp only [closedFor, Bool.and_eq_true, Bool.or_eq_true, bne_iff_ne, ne_eq,
      decide_eq_true_eq] at h
    have hpre : pat.isPrefixOf (c :: cs ++ b) = pat.isPrefixOf (c :: cs) := by
      rcases h.1 with h1 | h1
      · exact isPrefixOf_of_head_ne pat c _ _ h1
      · exact isPrefixOf_append_of_length_le pat (c :: cs) b h1
    simp only [List.cons_append] at hpre ⊢
    simp only [countOcc, hpre, ih h.2]
    omega

theorem closedFor_append (pat a b : List Char) (ha : closedFor pat a = true)
    (hb : closedFor pat b = true) : closedFor pat (a ++ b) = true := by
  induction a with
  | nil => simpa using hb
  | cons c cs ih =>
    simp only [closedFor, Bool.and_eq_true, Bool.or_eq_true, bne_iff_ne, ne_eq,
      decide_eq_true_eq, List.cons_append, List.length_cons, List.length_append,
      List.append_eq] at ha ⊢
    refine ⟨?_, ih ha.2⟩
    rcases ha.1 with h1 | h1
    · exact Or.inl h1
    · exact Or.inr (by omega)

theorem closedFor_of_not_mem (x : Char) (xs t : List Char) (h : x ∉ t) :
    closedFor (x :: xs) t = true := by
  induction t with
  | nil => rfl
  | cons c cs ih =>
    have hc : x ≠ c := fun e => h (by simp [e])
    have hcs : x ∉ cs := fun e => h (List.mem_cons_of_mem _ e)
    simp [closedFor, hc, ih hcs]

theorem countOcc_of_not_mem (x : Char) (xs t : List Char) (h : x ∉ t) :
    countOcc (x :: xs) t = 0 := by
  induction t with
  | nil => rfl
  | cons c cs ih =>
    have hc : x ≠ c := fun e => h (by simp [e])
    have hcs : x ∉ cs := fun e => h (List.mem_cons_of_mem _ e)
    simp [countOcc, List.isPrefixOf, hc, ih hcs]

theorem homeHead_closed :
    closedFor buttonTag homeHead.data = true ∧ countOcc buttonTag homeHead.data = 0 := by
  set_option maxRecDepth 100000 in
  constructor <;> decide

theorem homeTail_count : countOcc buttonTag homeTail.data = 0 := by
  decide

theorem bodyOf_map_write (l : List String) :
    bodyOf (l.map ResponseEvent.write) = String.join l := by
  unfold bodyOf
  congr 1
  induction l with
  | nil => rfl
  | cons c cs ih => simp [List.filterMap_cons, ih]

theorem bodyOf_append (a b : ResponseWriter) : bodyOf (a ++ b) = bodyOf a ++ bodyOf b := by
  apply String.ext
  simp [bodyOf, String.data_join, String.data_append, List.filterMap_append]

/-- The chunks `Execute` writes for `homeTemplate`. -/
theorem execute_homeTemplate (esc : Escapers) (pins : List PinState) :
    execute esc homeTemplate pins =
      homeHead :: ((pins.map fun p =>
        [buttonOpen, esc.attr p.NextState, buttonLink, esc.jsStr p.PinNum, buttonLabel,
          esc.html p.Name, buttonClose]).flatten ++ [homeTail]) := by
  simp [execute, homeTemplate, execNode, execItem, PinState.field, Escapers.apply]

theorem buttonOf_eq (esc : Escapers) (p : PinState) :
    buttonOf esc p = buttonOpen ++ esc.attr p.NextState ++ buttonLink ++ esc.jsStr p.PinNum
      ++ buttonLabel ++ esc.html p.Name ++ buttonClose := rfl

theorem buttonOf_data (esc : Escapers) (p : PinState) :
    (buttonOf esc p).data =
      buttonOpen.data ++ ((esc.attr p.NextState).data ++ (buttonLink.data ++
        ((esc.jsStr p.PinNum).data ++ (buttonLabel.data ++ ((esc.html p.Name).data ++
          buttonClose.data))))) := by
  simp only [buttonOf_eq, String.data_append, List.append_assoc]

theorem join_buttons (esc : Escapers) (pins : List PinState) :
    String.join ((pins.map fun p =>
        [buttonOpen, esc.attr p.NextState, buttonLink, esc.jsStr p.PinNum, buttonLabel,
          esc.html p.Name, buttonClose]).flatten) =
      String.join (pins.map (buttonOf esc)) := by
  apply String.ext
  induction pins with
  | nil => rfl
  | cons p ps ih =>
    simp only [String.data_join] at ih
    simp only [String.data_join, List.map_cons, List.flatten_cons, List.map_append,
      List.flatten_append, ih, buttonOf_data, List.map_nil, List.flatten_nil,
      List.append_nil, List.append_assoc]

/-- The page as one string. -/
theorem body_homeTemplate (esc : Escapers) (pins : List PinState) :
    String.join (execute esc homeTemplate pins) =
      homeHead ++ String.join (pins.map (buttonOf esc)) ++ homeTail := by
  rw [execute_homeTemplate]
  have h := congrArg String.data (join_buttons esc pins)
  apply String.ext
  simp only [String.data_join] at h
  simp only [String.data_join, String.data_append, List.map_cons, List.flatten_cons,
    List.map_append, List.flatten_append, h]
  simp

/-- One button holds the tag once, and the tag cannot run over its end. -/
theorem buttonOf_count (esc : Escapers) (p : PinState)
    (hesc : ∀ x, '<' ∉ (esc.attr x).data ∧ '<' ∉ (esc.jsStr x).data ∧ '<' ∉ (esc.html x).data) :
    closedFor buttonTag (buttonOf esc p).data = true ∧
      countOcc buttonTag (buttonOf esc p).data = 1 := by
  have a1 : closedFor buttonTag (esc.attr p.NextState).data = true :=
    closedFor_of_not_mem _ _ _ (hesc p.NextState).1
  have a2 : countOcc buttonTag (esc.attr p.NextState).data = 0 :=
    countOcc_of_not_mem _ _ _ (hesc p.NextState).1
  have j1 : closedFor buttonTag (esc.jsStr p.PinNum).data = true :=
    closedFor_of_not_mem _ _ _ (hesc p.PinNum).2.1
  have j2 : countOcc buttonTag (esc.jsStr p.PinNum).data = 0 :=
    countOcc_of_not_mem _ _ _ (hesc p.PinNum).2.1
  have n1 : closedFor buttonTag (esc.html p.Name).data = true :=
    closedFor_of_not_mem _ _ _ (hesc p.Name).2.2
  have n2 : countOcc buttonTag (esc.html p.Name).data = 0 :=
    countOcc_of_not_mem _ _ _ (hesc p.Name).2.2
  have o1 : closedFor buttonTag buttonOpen.data = true := by decide
  have o2 : countOcc buttonTag buttonOpen.data = 1 := by decide
  have l1 : closedFor buttonTag buttonLink.data = true := by decide
  have l2 : countOcc buttonTag buttonLink.data = 0 := by decide
  have b1 : closedFor buttonTag buttonLabel.data = true := by decide
  have b2 : countOcc buttonTag buttonLabel.data = 0 := by decide
  have c1 : closedFor buttonTag buttonClose.data = true := by decide
  have c2 : countOcc buttonTag buttonClose.data = 0 := by decide
  have hdata := buttonOf_data esc p
  have k6 := closedFor_append _ _ _ n1 c1
  have k5 := closedFor_append _ _ _ b1 k6
  have k4 := closedFor_append _ _ _ j1 k5
  have k3 := closedFor_append _ _ _ l1 k4
  have k2 := closedFor_append _ _ _ a1 k3
  have k1 := closedFor_append _ _ _ o1 k2
  rw [hdata]
  refine ⟨k1, ?_⟩
  rw [countOcc_append _ _ _ o1, countOcc_append _ _ _ a1, countOcc_append _ _ _ l1,
    countOcc_append _ _ _ j1, countOcc_append _ _ _ b1, countOcc_append _ _ _ n1]
  rw [o2, a2, l2, j2, b2, n2, c2]

theorem buttons_count (esc : Escapers) (pins : List PinState) (rest : List Char)
    (hesc : ∀ x, '<' ∉ (esc.attr x).data ∧ '<' ∉ (esc.jsStr x).data ∧ '<' ∉ (esc.html x).data) :
    countOcc buttonTag ((pins.map fun p => (buttonOf esc p).data).flatten ++ rest) =
      pins.length + countOcc buttonTag rest := by
  induction pins with
  | nil => simp
  | cons p ps ih =>
    obtain ⟨hc, hn⟩ := buttonOf_count esc p hesc
    simp only [List.map_cons, List.flatten_cons, List.append_assoc, List.length_cons]
    rw [countOcc_append _ _ _ hc, hn, ih]
    omega

theorem escapeAngle_no_angle (x : String) : '<' ∉ (escapeAngle x).data := by
  unfold escapeAngle
  simp only [List.mem_flatten, List.mem_map, not_exists, not_and]
  rintro l ⟨c, _, rfl⟩
  by_cases hc : c = '<'
  · simp only [hc, if_true]
    decide
  · simp only [hc, if_false, List.mem_singleton]
    exact fun e => hc e.symm

/-- C8: `handleHomeRequest` changes neither the registry nor the board; the page is the
head of the template, then one button per entry of `pins` in list order, the button of
an entry carrying its display state as class, `/switch?pin=` with its identifier as
link and its name as content, then the tail. When the escapers emit no `<`, the page
contains the tag `<button` exactly as many times as `pins` has entries. -/
theorem home_page_buttons (esc : Escapers) (s : State) (res : ResponseWriter)
    (req : Request) :
    (handleHomeRequest esc s res req).state = s ∧
    (handleHomeRequest esc s res req).panicked = false ∧
    bodyOf (handleHomeRequest esc s res req).res =
      bodyOf res ++ (homeHead ++ String.join (s.pins.map (buttonOf esc)) ++ homeTail) ∧
    (∀ i (h : i < s.pins.length),
      (s.pins.map (buttonOf esc))[i]? = some (buttonOf esc (s.pins.get ⟨i, h⟩))) ∧
    ((∀ x, '<' ∉ (esc.attr x).data ∧ '<' ∉ (esc.jsStr x).data ∧ '<' ∉ (esc.html x).data) →
      countOcc buttonTag
        (homeHead ++ String.join (s.pins.map (buttonOf esc)) ++ homeTail).data
        = s.pins.length) := by
  refine ⟨rfl, rfl, ?_, ?_, ?_⟩
  · simp only [handleHomeRequest]
    rw [bodyOf_append, bodyOf_map_write, body_homeTemplate]
  · intro i h
    simp [List.getElem?_map, List.getElem?_eq_getElem h]
  · intro hesc
    simp only [String.data_append, String.data_join, List.map_map, List.append_assoc]
    rw [countOcc_append _ _ _ homeHead_closed.1, homeHead_closed.2]
    have hb := buttons_count esc s.pins homeTail.data hesc
    simp only [homeTail_count, Nat.add_zero] at hb
    rw [← hb, Nat.zero_add]
    rfl

/-- C8 on the registry `setupPins` leaves, with escapers that emit no `<`: two buttons. -/
theorem home_page_buttons_witness :
    countOcc buttonTag
      (homeHead ++ String.join ((setupAt Level.Low).pins.map (buttonOf sampleEscapers))
        ++ homeTail).data = 2 :=
  (home_page_buttons sampleEscapers (setupAt Level.Low) [] (switchReq "")).2.2.2.2
    fun x => ⟨escapeAngle_no_angle x, escapeAngle_no_angle x, escapeAngle_no_angle x⟩

end Lights
